import Mathlib

/-!
Shallow embedding of the heater controller firmware (src/src/main.rs):
the shared control-state store, the HTTP setpoint handler, the ADC
measurement task, and the SSR time-proportioning control task.
Floating-point (`f32`) arithmetic is modelled over the exact rationals,
with the final square root taken in the reals.
-/

namespace Still

/-- The shared control state (`struct Shared` in main.rs): a fractional
power setpoint and the most recent RMS current estimate, protected by
one `Mutex` in the source. -/
structure Shared where
  setpoint : ℚ
  rms_current : ℚ
deriving DecidableEq

/-- Initial shared state created in `main`: `setpoint: 0.0, rms_current: 0.0`. -/
def initShared : Shared := ⟨0, 0⟩

/-! ### HTTP setpoint handler (GET /heater/power)

The handler iterates over the url-decoded query pairs; each pair whose
key is "p" overwrites `new_sp` with `Some 0.0` for the literal "off",
with the clamped parse result for a string parsing as `f32`, and with
`None` otherwise. A query value is modelled by which of those three
classes the string falls into. -/

/-- Classification of a query-parameter value string by the handler:
the literal "off" token, a string parsing as a floating-point number
with value `x`, or a string doing neither. -/
inductive PVal where
  | off : PVal
  | num (x : ℚ) : PVal
  | bad : PVal
deriving DecidableEq

/-- Rust `x.clamp(lo, hi)`: `lo` if `x < lo`, `hi` if `x > hi`, else `x`. -/
def rustClamp (x lo hi : ℚ) : ℚ :=
  if x < lo then lo else if x > hi then hi else x

/-- The value the handler assigns to `new_sp` for one "p" pair:
`Some(0.0)` for "off", `v.parse::<f32>().ok().map(|x| x.clamp(0.0, 1.0))`
otherwise. -/
def parseP (v : PVal) : Option ℚ :=
  match v with
  | .off => some 0
  | .num x => some (rustClamp x 0 1)
  | .bad => none

/-- The handler loop computing `new_sp`: starting from `None`, every
pair with key "p" overwrites the accumulator with `parseP` of its value
(pairs with other keys are ignored). -/
def newSp (query : List (String × PVal)) : Option ℚ :=
  query.foldl (fun acc kv => if kv.1 = "p" then parseP kv.2 else acc) none

/-- Value of the last query pair with key "p", if any. -/
def lastP : List (String × PVal) → Option PVal
  | [] => none
  | kv :: rest =>
    match lastP rest with
    | some v => some v
    | none => if kv.1 = "p" then some kv.2 else none

/-- The state effect of one GET /heater/power request:
`if let Some(sp) = new_sp { shared.lock().unwrap().setpoint = sp; }`. -/
def handlePower (st : Shared) (query : List (String × PVal)) : Shared :=
  match newSp query with
  | some sp => { st with setpoint := sp }
  | none => st

/-- A sequence of setpoint requests applied in order to the store. -/
def applyRequests (st : Shared) (reqs : List (List (String × PVal))) : Shared :=
  reqs.foldl handlePower st

/-! ### Measurement task (measurement_task)

One acquisition attempt either yields a raw ADC reading (a `u16`,
modelled as a natural number) or fails; the task converts successful
readings to currents, accumulates squares and a count over a batch of
`BATCH` attempts, then publishes an RMS value. -/

/-- Calibration constant `VREF: f32 = 3.3`. -/
def VREF : ℚ := 33 / 10

/-- Calibration constant `ADC_MAX: f32 = 4095.0`. -/
def ADC_MAX : ℚ := 4095

/-- Calibration constant `V_ZERO: f32 = 1.5`. -/
def V_ZERO : ℚ := 3 / 2

/-- Calibration constant `SENSE: f32 = 0.066`. -/
def SENSE : ℚ := 66 / 1000

/-- Batch size `BATCH: usize = 100`. -/
def BATCH : ℕ := 100

/-- Fixed backoff, in ms, after a failed read: `Ets::delay_ms(10)`. -/
def ERR_BACKOFF_MS : ℕ := 10

/-- Affine calibration of one raw reading:
`v = raw as f32 / ADC_MAX * VREF; i = (v - V_ZERO) / SENSE`. -/
def convertCurrent (raw : ℕ) : ℚ :=
  ((raw : ℚ) / ADC_MAX * VREF - V_ZERO) / SENSE

/-- One iteration of the batch `for` loop over the accumulator
`(sum_sq, cnt)`: on `Ok(raw)` add `i * i` and increment `cnt`; on
`Err` leave both unchanged (the loop then moves on to its next
iteration). -/
def sampleStep (acc : ℚ × ℕ) (r : Option ℕ) : ℚ × ℕ :=
  match r with
  | some raw => (acc.1 + convertCurrent raw * convertCurrent raw, acc.2 + 1)
  | none => acc

/-- The whole batch loop `for _ in 0..BATCH`, run over the list of the
read results of its attempts (one list entry per loop iteration). -/
def runBatch (acc : ℚ × ℕ) (attempts : List (Option ℕ)) : ℚ × ℕ :=
  attempts.foldl sampleStep acc

/-- Raw readings of the accepted (successful) attempts, in order. -/
def acceptedRaws (attempts : List (Option ℕ)) : List ℕ :=
  attempts.filterMap id

/-- Number of accepted samples among the attempts of a batch. -/
def numAccepted (attempts : List (Option ℕ)) : ℕ :=
  (acceptedRaws attempts).length

/-- Number of failed attempts in a batch. -/
def numFailed (attempts : List (Option ℕ)) : ℕ :=
  attempts.countP (fun a => a.isNone)

/-- Sum of the squared currents of the accepted samples of a batch. -/
def batchSumSq (attempts : List (Option ℕ)) : ℚ :=
  ((acceptedRaws attempts).map (fun r => convertCurrent r * convertCurrent r)).sum

/-- Total error-backoff delay accumulated by a batch: the `Err` arm of
the match runs `Ets::delay_ms(10)` once per failed attempt. -/
def batchBackoffMs (attempts : List (Option ℕ)) : ℕ :=
  attempts.foldl (fun d a => match a with | none => d + ERR_BACKOFF_MS | some _ => d) 0

/-- The value written to `shared.rms_current` after a batch:
`(sum_sq / cnt as f32).sqrt()` when `cnt > 0`, and `0.0` otherwise. -/
noncomputable def publishedRms (acc : ℚ × ℕ) : ℝ :=
  if 0 < acc.2 then Real.sqrt ((acc.1 : ℝ) / (acc.2 : ℝ)) else 0

/-- Accumulator state after the publish step: the reset
`sum_sq = 0.0; cnt = 0;` is executed only in the `cnt > 0` branch; the
zero-count branch leaves the accumulator untouched. -/
def postBatchAcc (acc : ℚ × ℕ) : ℚ × ℕ :=
  if 0 < acc.2 then (0, 0) else acc

/-- Accumulator effect of one full iteration of the outer `loop`
(one batch followed by the publish step). -/
def measIterAcc (acc : ℚ × ℕ) (attempts : List (Option ℕ)) : ℚ × ℕ :=
  postBatchAcc (runBatch acc attempts)

/-- Accumulator state after a sequence of batches of the outer loop. -/
def measRunAcc (acc : ℚ × ℕ) (batches : List (List (Option ℕ))) : ℚ × ℕ :=
  batches.foldl measIterAcc acc

/-- Modelled from the spec: the batch-loop semantics the spec describes
for claim C4, in which a failed attempt is retried and does not consume
one of the `BATCH` slots — the loop keeps drawing read results from the
stream until `slots` successes have been accumulated (or the stream is
exhausted). This definition follows the words of the spec, not the
source, and exists only to be compared with `runBatch`. -/
def specRetryBatch : ℕ → List (Option ℕ) → (ℚ × ℕ) → (ℚ × ℕ)
  | 0, _, acc => acc
  | _ + 1, [], acc => acc
  | slots + 1, some raw :: rest, acc =>
      specRetryBatch slots rest
        (acc.1 + convertCurrent raw * convertCurrent raw, acc.2 + 1)
  | slots + 1, none :: rest, acc => specRetryBatch (slots + 1) rest acc

/-! ### SSR control task (ssr_control_task) -/

/-- Control period `PERIOD: u32 = 100` ms. -/
def PERIOD : ℕ := 100

/-- Rust `f32::round`: round to the nearest integer, ties away from
zero. -/
def roundTiesAway (x : ℚ) : ℤ :=
  if 0 ≤ x then ⌊x + 1 / 2⌋ else -⌊-x + 1 / 2⌋

/-- Rust saturating cast `as u32` from a float with integral value. -/
def u32Sat (z : ℤ) : ℕ :=
  min z.toNat (2 ^ 32 - 1)

/-- `on_ms = (sp * PERIOD as f32).round() as u32`. -/
def on_ms (sp : ℚ) : ℕ :=
  u32Sat (roundTiesAway (sp * (PERIOD : ℚ)))

/-- Realized output pattern of one control period, as
(milliseconds high, milliseconds low): low for the whole period when
`on_ms == 0`, high for the whole period when `on_ms >= PERIOD`, and a
high-then-low split otherwise. -/
def ssrPeriod (sp : ℚ) : ℕ × ℕ :=
  if on_ms sp = 0 then (0, PERIOD)
  else if PERIOD ≤ on_ms sp then (PERIOD, 0)
  else (on_ms sp, PERIOD - on_ms sp)

/-! ### Concurrency model of the shared store

Every access to `Shared` in the source happens inside one
`shared.lock().unwrap()` critical section, so an interleaved execution
is a sequence of atomic operations on the store: a setpoint write (the
handler), an rms write (the measurement task), or a read snapshotting
the fields under the lock. -/

/-- One lock-protected critical section on the store. -/
inductive StoreOp where
  | setSp (v : ℚ) : StoreOp
  | setRms (v : ℚ) : StoreOp
  | read : StoreOp
deriving DecidableEq

/-- State transition of one critical section. -/
def applyOp (s : Shared) (op : StoreOp) : Shared :=
  match op with
  | .setSp v => { s with setpoint := v }
  | .setRms v => { s with rms_current := v }
  | .read => s

/-- Run an interleaving of critical sections, collecting for every read
the (setpoint, rms_current) pair it observed under the lock. -/
def runOps (s : Shared) (tr : List StoreOp) : Shared × List (ℚ × ℚ) :=
  match tr with
  | [] => (s, [])
  | op :: rest =>
    let res := runOps (applyOp s op) rest
    match op with
    | .read => (res.1, (s.setpoint, s.rms_current) :: res.2)
    | _ => res

/-- All states the store passes through along a trace, in order. -/
def traceStates (s : Shared) (tr : List StoreOp) : List Shared :=
  tr.scanl applyOp s

/-! ### Helper lemmas -/

theorem foldl_newSp_lastP (q : List (String × PVal)) (acc : Option ℚ) :
    q.foldl (fun acc kv => if kv.1 = "p" then parseP kv.2 else acc) acc =
      match lastP q with
      | some v => parseP v
      | none => acc := by
  induction q generalizing acc with
  | nil => rfl
  | cons kv rest ih =>
    simp only [List.foldl_cons, lastP, ih]
    cases lastP rest <;> simp
    split_ifs <;> simp

theorem newSp_eq_lastP (q : List (String × PVal)) :
    newSp q = match lastP q with
      | some v => parseP v
      | none => none :=
  foldl_newSp_lastP q none

theorem rustClamp_bounds (x lo hi : ℚ) (h : lo ≤ hi) :
    lo ≤ rustClamp x lo hi ∧ rustClamp x lo hi ≤ hi := by
  unfold rustClamp
  split_ifs <;> constructor <;> linarith

theorem parseP_bounds (v : PVal) (sp : ℚ) (h : parseP v = some sp) :
    0 ≤ sp ∧ sp ≤ 1 := by
  cases v with
  | off =>
    simp only [parseP, Option.some.injEq] at h
    subst h; norm_num
  | num x =>
    simp only [parseP, Option.some.injEq] at h
    subst h; exact rustClamp_bounds x 0 1 (by norm_num)
  | bad => simp [parseP] at h

theorem handlePower_setpoint_bounds (st : Shared) (q : List (String × PVal))
    (h0 : 0 ≤ st.setpoint) (h1 : st.setpoint ≤ 1) :
    0 ≤ (handlePower st q).setpoint ∧ (handlePower st q).setpoint ≤ 1 := by
  unfold handlePower
  rcases hsp : newSp q with _ | sp
  · exact ⟨h0, h1⟩
  · rw [newSp_eq_lastP q] at hsp
    rcases hl : lastP q with _ | v
    · rw [hl] at hsp; simp at hsp
    · rw [hl] at hsp
      exact parseP_bounds v sp hsp

theorem acceptedRaws_cons_some (raw : ℕ) (rest : List (Option ℕ)) :
    acceptedRaws (some raw :: rest) = raw :: acceptedRaws rest := rfl

theorem acceptedRaws_cons_none (rest : List (Option ℕ)) :
    acceptedRaws (none :: rest) = acceptedRaws rest := rfl

theorem numAccepted_cons_some (raw : ℕ) (rest : List (Option ℕ)) :
    numAccepted (some raw :: rest) = numAccepted rest + 1 := by
  simp [numAccepted, acceptedRaws_cons_some]

theorem numAccepted_cons_none (rest : List (Option ℕ)) :
    numAccepted (none :: rest) = numAccepted rest := by
  simp [numAccepted, acceptedRaws_cons_none]

theorem batchSumSq_cons_some (raw : ℕ) (rest : List (Option ℕ)) :
    batchSumSq (some raw :: rest) =
      convertCurrent raw * convertCurrent raw + batchSumSq rest := by
  simp [batchSumSq, acceptedRaws_cons_some]

theorem batchSumSq_cons_none (rest : List (Option ℕ)) :
    batchSumSq (none :: rest) = batchSumSq rest := by
  simp [batchSumSq, acceptedRaws_cons_none]

theorem runBatch_closed_form :
    ∀ (attempts : List (Option ℕ)) (acc : ℚ × ℕ),
      runBatch acc attempts = (acc.1 + batchSumSq attempts, acc.2 + numAccepted attempts) := by
  intro attempts
  induction attempts with
  | nil =>
    intro acc
    simp [runBatch, batchSumSq, numAccepted, acceptedRaws]
  | cons a rest ih =>
    intro acc
    cases a with
    | some raw =>
      have hstep : runBatch acc (some raw :: rest) =
          runBatch (acc.1 + convertCurrent raw * convertCurrent raw, acc.2 + 1) rest := rfl
      rw [hstep, ih, batchSumSq_cons_some, numAccepted_cons_some]
      simp only [Prod.mk.injEq]
      constructor
      · ring
      · omega
    | none =>
      have hstep : runBatch acc (none :: rest) = runBatch acc rest := rfl
      rw [hstep, ih, batchSumSq_cons_none, numAccepted_cons_none]

theorem batchSumSq_of_no_accepted (attempts : List (Option ℕ))
    (h : numAccepted attempts = 0) : batchSumSq attempts = 0 := by
  unfold numAccepted at h
  rw [List.length_eq_zero] at h
  unfold batchSumSq
  rw [h]
  rfl

theorem numAccepted_add_numFailed (attempts : List (Option ℕ)) :
    numAccepted attempts + numFailed attempts = attempts.length := by
  induction attempts with
  | nil => rfl
  | cons a rest ih =>
    cases a with
    | some raw =>
      simp [numAccepted_cons_some, numFailed, List.countP_cons] at *
      omega
    | none =>
      simp [numAccepted_cons_none, numFailed, List.countP_cons] at *
      omega

theorem batchBackoffMs_closed_form (attempts : List (Option ℕ)) :
    batchBackoffMs attempts = ERR_BACKOFF_MS * numFailed attempts := by
  have gen : ∀ (l : List (Option ℕ)) (d : ℕ),
      l.foldl (fun d a => match a with | none => d + ERR_BACKOFF_MS | some _ => d) d =
        d + ERR_BACKOFF_MS * l.countP (fun a => a.isNone) := by
    intro l
    induction l with
    | nil => intro d; simp
    | cons a rest ih =>
      intro d
      cases a with
      | some raw =>
        simp only [List.foldl_cons]
        rw [ih]
        simp [ERR_BACKOFF_MS, List.countP_cons]
      | none =>
        simp only [List.foldl_cons]
        rw [ih]
        simp [ERR_BACKOFF_MS, List.countP_cons]
        omega
  unfold batchBackoffMs numFailed
  rw [gen]
  simp

theorem specRetryBatch_cnt :
    ∀ (l : List (Option ℕ)) (slots : ℕ) (acc : ℚ × ℕ),
      (specRetryBatch slots l acc).2 = acc.2 + min slots (numAccepted l) := by
  intro l
  induction l with
  | nil =>
    intro slots acc
    cases slots <;> simp [specRetryBatch, numAccepted, acceptedRaws]
  | cons a rest ih =>
    intro slots acc
    cases slots with
    | zero => simp [specRetryBatch]
    | succ s =>
      cases a with
      | some raw =>
        show (specRetryBatch s rest
          (acc.1 + convertCurrent raw * convertCurrent raw, acc.2 + 1)).2 = _
        rw [ih, numAccepted_cons_some]
        show acc.2 + 1 + min s (numAccepted rest) = _
        omega
      | none =>
        show (specRetryBatch (s + 1) rest acc).2 = _
        rw [ih, numAccepted_cons_none]

/-! ### Claim theorems -/

/-- C1: after processing a setpoint request whose single p value is `v`,
the stored setpoint equals `clamp(v, 0.0, 1.0)` when `v` parses as a
floating-point number (and that clamp agrees with `min (max v 0) 1`),
and equals `0.0` when `v` is the literal off-token. -/
theorem setpoint_request_stores_clamped_value :
    ∀ (st : Shared) (x : ℚ),
      (handlePower st [("p", PVal.num x)]).setpoint = rustClamp x 0 1 ∧
      rustClamp x 0 1 = min (max x 0) 1 ∧
      (handlePower st [("p", PVal.off)]).setpoint = 0 := by
  intro st x
  refine ⟨rfl, ?_, rfl⟩
  unfold rustClamp
  rcases le_or_lt x 0 with h0 | h0
  · rcases lt_or_le x 0 with h | h
    · simp only [if_pos h]
      rw [max_eq_right h0, min_eq_left (by norm_num : (0:ℚ) ≤ 1)]
    · have hx : x = 0 := le_antisymm h0 h
      subst hx; norm_num
  · rw [if_neg (by linarith), max_eq_left (le_of_lt h0)]
    rcases lt_or_le (1:ℚ) x with h1 | h1
    · rw [if_pos h1, min_eq_right (le_of_lt h1)]
    · rw [if_neg (by linarith), min_eq_left h1]

/-- C2: starting from the initial state (setpoint 0.0), after any
sequence of setpoint requests the stored setpoint lies in [0.0, 1.0];
since this holds for every prefix of the sequence, no reader ever
observes a stored setpoint outside this range. -/
theorem setpoint_always_in_unit_interval :
    ∀ reqs : List (List (String × PVal)),
      0 ≤ (applyRequests initShared reqs).setpoint ∧
      (applyRequests initShared reqs).setpoint ≤ 1 := by
  have main : ∀ (reqs : List (List (String × PVal))) (st : Shared),
      0 ≤ st.setpoint → st.setpoint ≤ 1 →
      0 ≤ (applyRequests st reqs).setpoint ∧ (applyRequests st reqs).setpoint ≤ 1 := by
    intro reqs
    induction reqs with
    | nil => intro st h0 h1; exact ⟨h0, h1⟩
    | cons q rest ih =>
      intro st h0 h1
      have h := handlePower_setpoint_bounds st q h0 h1
      exact ih (handlePower st q) h.1 h.2
  intro reqs
  exact main reqs initShared (by norm_num [initShared]) (by norm_num [initShared])

/-- C7: a request in which every p-keyed query value is unparsable
(neither the off-token nor a number) leaves the stored setpoint
unchanged: the request is a no-op on the store. -/
theorem unparsable_setpoint_is_noop :
    ∀ (st : Shared) (q : List (String × PVal)),
      (∀ kv ∈ q, kv.1 = "p" → kv.2 = PVal.bad) →
      (handlePower st q).setpoint = st.setpoint := by
  intro st q hbad
  have hlast : lastP q = none ∨ lastP q = some PVal.bad := by
    induction q with
    | nil => exact Or.inl rfl
    | cons kv rest ih =>
      have hrest := ih (fun kv' h' => hbad kv' (List.mem_cons_of_mem kv h'))
      rcases hrest with h | h
      · simp only [lastP, h]
        by_cases hp : kv.1 = "p"
        · rw [if_pos hp, hbad kv (List.mem_cons_self kv rest) hp]
          exact Or.inr (by simp)
        · rw [if_neg hp]
          exact Or.inl rfl
      · simp only [lastP, h]
        exact Or.inr (by simp)
  have hsp : newSp q = none := by
    rw [newSp_eq_lastP q]
    rcases hlast with h | h <;> rw [h]
    rfl
  unfold handlePower
  rw [hsp]

/-- C7 witness: a concrete request with one unparsable p value leaves a
concrete prior setpoint of 0.3 in place. -/
theorem unparsable_setpoint_is_noop_witness :
    (∀ kv ∈ [("p", PVal.bad), ("x", PVal.num 5)], kv.1 = "p" → kv.2 = PVal.bad) ∧
    (handlePower ⟨3/10, 0⟩ [("p", PVal.bad), ("x", PVal.num 5)]).setpoint =
      (Shared.mk (3/10) 0).setpoint :=
  ⟨by decide, unparsable_setpoint_is_noop ⟨3/10, 0⟩ _ (by decide)⟩

/-- C10: the outcome of a request depends only on the last p-keyed
query pair, and in particular a request whose earlier p value is a
valid number but whose final p value is unparsable performs no write
at all, discarding the earlier valid value. -/
theorem last_p_occurrence_wins :
    (∀ (st : Shared) (q : List (String × PVal)) (v : PVal),
      handlePower st (q ++ [("p", v)]) = handlePower st [("p", v)]) ∧
    (∀ (st : Shared) (x : ℚ),
      (handlePower st [("p", PVal.num x), ("p", PVal.bad)]).setpoint = st.setpoint) := by
  constructor
  · intro st q v
    have hsingle : ∀ acc : Option ℚ,
        List.foldl (fun acc kv => if kv.1 = "p" then parseP kv.2 else acc)
          acc [("p", v)] = parseP v := by
      intro acc
      simp
    unfold handlePower newSp
    rw [List.foldl_append, hsingle, hsingle]
  · intro st x
    rfl

/-- C3: for any batch with a positive number of accepted samples, the
published RMS equals the square root of the sum of the squared
calibrated currents of the accepted samples divided by the accepted
count (not by the fixed batch size). -/
theorem rms_uses_accepted_count_denominator :
    ∀ attempts : List (Option ℕ), 0 < numAccepted attempts →
      publishedRms (runBatch (0, 0) attempts) =
        Real.sqrt ((batchSumSq attempts : ℝ) / (numAccepted attempts : ℝ)) := by
  intro attempts h
  rw [runBatch_closed_form]
  unfold publishedRms
  simp only [zero_add]
  rw [if_pos h]

/-- C3 witness: a batch of two attempts with one success and one
failure, so the accepted count is 1 (below BATCH). -/
theorem rms_uses_accepted_count_denominator_witness :
    0 < numAccepted [some 2048, none] ∧
    publishedRms (runBatch (0, 0) [some 2048, none]) =
      Real.sqrt ((batchSumSq [some 2048, none] : ℝ) /
        (numAccepted [some 2048, none] : ℝ)) :=
  ⟨by decide, rms_uses_accepted_count_denominator [some 2048, none] (by decide)⟩

/-- C6: a batch in which every acquisition attempt failed has accepted
count 0, the zero-count branch is taken, and the published RMS is
exactly 0.0. -/
theorem zero_accepted_batch_publishes_zero :
    ∀ attempts : List (Option ℕ), numAccepted attempts = 0 →
      (runBatch (0, 0) attempts).2 = 0 ∧
      publishedRms (runBatch (0, 0) attempts) = 0 := by
  intro attempts h
  rw [runBatch_closed_form]
  refine ⟨by simp [h], ?_⟩
  unfold publishedRms
  simp [h]

/-- C6 witness: a full batch of BATCH failed attempts publishes 0.0. -/
theorem zero_accepted_batch_publishes_zero_witness :
    numAccepted (List.replicate BATCH none) = 0 ∧
    ((runBatch (0, 0) (List.replicate BATCH none)).2 = 0 ∧
      publishedRms (runBatch (0, 0) (List.replicate BATCH none)) = 0) :=
  ⟨by decide, zero_accepted_batch_publishes_zero _ (by decide)⟩

/-- C9: starting from the initial accumulator, after any sequence of
batches the accumulator is back to sum_sq = 0 and cnt = 0, so every
batch starts from a zero accumulator even though the explicit reset is
executed only in the cnt > 0 branch: a fully-failed batch never touches
the accumulator, which is therefore still zero. -/
theorem accumulator_zero_at_batch_start :
    ∀ batches : List (List (Option ℕ)), measRunAcc (0, 0) batches = (0, 0) := by
  have hiter : ∀ attempts : List (Option ℕ), measIterAcc (0, 0) attempts = (0, 0) := by
    intro attempts
    unfold measIterAcc
    rw [runBatch_closed_form]
    simp only [zero_add]
    unfold postBatchAcc
    by_cases h : 0 < numAccepted attempts
    · rw [if_pos h]
    · rw [if_neg h]
      have hz : numAccepted attempts = 0 := by omega
      rw [hz, batchSumSq_of_no_accepted attempts hz]
  intro batches
  induction batches with
  | nil => rfl
  | cons b rest ih =>
    show measRunAcc (measIterAcc (0, 0) b) rest = (0, 0)
    rw [hiter]
    exact ih

/-- C4 (amended): the batch loop performs exactly BATCH acquisition
attempts; a failed attempt does not increment the accepted count and
incurs one fixed 10 ms backoff, but it consumes one of the BATCH loop
iterations rather than being re-attempted, so the batch completes with
accepted count BATCH minus the number of failures. -/
theorem failed_attempt_skips_slot_with_backoff :
    ∀ attempts : List (Option ℕ), attempts.length = BATCH →
      (runBatch (0, 0) attempts).2 = numAccepted attempts ∧
      numAccepted attempts + numFailed attempts = BATCH ∧
      batchBackoffMs attempts = ERR_BACKOFF_MS * numFailed attempts := by
  intro attempts hlen
  refine ⟨?_, ?_, batchBackoffMs_closed_form attempts⟩
  · rw [runBatch_closed_form]
    simp
  · rw [numAccepted_add_numFailed, hlen]

/-- C4 amended-claim witness: a batch whose first attempt fails and
whose other 99 attempts succeed. -/
theorem failed_attempt_skips_slot_with_backoff_witness :
    (none :: List.replicate 99 (some 0)).length = BATCH ∧
    ((runBatch (0, 0) (none :: List.replicate 99 (some 0))).2 =
        numAccepted (none :: List.replicate 99 (some 0)) ∧
      numAccepted (none :: List.replicate 99 (some 0)) +
        numFailed (none :: List.replicate 99 (some 0)) = BATCH ∧
      batchBackoffMs (none :: List.replicate 99 (some 0)) =
        ERR_BACKOFF_MS * numFailed (none :: List.replicate 99 (some 0))) :=
  ⟨by decide, failed_attempt_skips_slot_with_backoff _ (by decide)⟩

/-- C4 counterexample: on an attempt stream whose first read fails and
whose following BATCH reads succeed, the batch loop of the code (which
always consumes exactly BATCH read results) finishes with accepted
count 99, while the retry-the-same-slot semantics asserted by the
claim (modelled by specRetryBatch) would finish the same batch with
accepted count 100: the failure does consume one of the BATCH slots. -/
theorem failed_attempt_consumes_slot_cex :
    (runBatch (0, 0) (List.take BATCH (none :: List.replicate BATCH (some 0)))).2 = 99 ∧
    (specRetryBatch BATCH (none :: List.replicate BATCH (some 0)) (0, 0)).2 = 100 ∧
    (99 : ℕ) ≠ 100 := by
  refine ⟨?_, ?_, by decide⟩
  · rw [runBatch_closed_form]
    show 0 + numAccepted (List.take BATCH (none :: List.replicate BATCH (some 0))) = 99
    rw [Nat.zero_add]
    decide
  · rw [specRetryBatch_cnt]
    show 0 + min BATCH (numAccepted (none :: List.replicate BATCH (some 0))) = 100
    rw [Nat.zero_add]
    decide

/-- C5: for a setpoint s in [0.0, 1.0] read at the start of a period,
on_ms = round(s * PERIOD) satisfies 0 <= on_ms <= PERIOD (on_ms is a
natural number, so the lower bound is implicit in its type), the
realized pattern is fully low when on_ms = 0, fully high when
on_ms >= PERIOD, and a high-then-low split otherwise, and the high and
low times always sum exactly to PERIOD. -/
theorem ssr_on_ms_bounded_and_split_sums_to_period :
    ∀ sp : ℚ, 0 ≤ sp → sp ≤ 1 →
      on_ms sp ≤ PERIOD ∧
      (on_ms sp = 0 → ssrPeriod sp = (0, PERIOD)) ∧
      (PERIOD ≤ on_ms sp → ssrPeriod sp = (PERIOD, 0)) ∧
      (0 < on_ms sp → on_ms sp < PERIOD → ssrPeriod sp = (on_ms sp, PERIOD - on_ms sp)) ∧
      (ssrPeriod sp).1 + (ssrPeriod sp).2 = PERIOD := by
  intro sp h0 h1
  have hP : PERIOD = 100 := rfl
  have hx0 : (0 : ℚ) ≤ sp * (PERIOD : ℚ) := mul_nonneg h0 (by norm_num [hP])
  have hround_le : roundTiesAway (sp * (PERIOD : ℚ)) ≤ 100 := by
    unfold roundTiesAway
    rw [if_pos hx0]
    have hub : sp * (PERIOD : ℚ) + 1 / 2 < 101 := by
      have hm : sp * (PERIOD : ℚ) ≤ 1 * (PERIOD : ℚ) :=
        mul_le_mul_of_nonneg_right h1 (by norm_num [hP])
      rw [one_mul] at hm
      have : ((PERIOD : ℕ) : ℚ) = 100 := by norm_num [hP]
      linarith [hm, this.le]
    have hf : ⌊sp * (PERIOD : ℚ) + 1 / 2⌋ < 101 := Int.floor_lt.mpr (by exact_mod_cast hub)
    omega
  have hon : on_ms sp ≤ PERIOD := by
    unfold on_ms u32Sat
    have htn : (roundTiesAway (sp * (PERIOD : ℚ))).toNat ≤ 100 := Int.toNat_le.mpr hround_le
    omega
  refine ⟨hon, ?_, ?_, ?_, ?_⟩
  · intro hz
    unfold ssrPeriod
    rw [if_pos hz]
  · intro hge
    unfold ssrPeriod
    rw [if_neg (by rw [hP] at hge; omega), if_pos hge]
  · intro hpos hlt
    unfold ssrPeriod
    rw [if_neg (by omega), if_neg (by omega)]
  · unfold ssrPeriod
    split_ifs with hz hge
    · simp
    · simp
    · omega

/-- C5 witness: the period pattern for setpoint 0.5. -/
theorem ssr_on_ms_bounded_and_split_sums_to_period_witness :
    (0 : ℚ) ≤ 1 / 2 ∧ (1 / 2 : ℚ) ≤ 1 ∧
    (on_ms (1 / 2) ≤ PERIOD ∧
      (on_ms (1 / 2) = 0 → ssrPeriod (1 / 2) = (0, PERIOD)) ∧
      (PERIOD ≤ on_ms (1 / 2) → ssrPeriod (1 / 2) = (PERIOD, 0)) ∧
      (0 < on_ms (1 / 2) → on_ms (1 / 2) < PERIOD →
        ssrPeriod (1 / 2) = (on_ms (1 / 2), PERIOD - on_ms (1 / 2))) ∧
      (ssrPeriod (1 / 2)).1 + (ssrPeriod (1 / 2)).2 = PERIOD) :=
  ⟨by norm_num, by norm_num,
    ssr_on_ms_bounded_and_split_sums_to_period (1 / 2) (by norm_num) (by norm_num)⟩

/-- C8: in any interleaving of lock-protected setpoint writes, rms
writes, and reads, every read observes a (setpoint, rms_current) pair
that is exactly the content of the store at some instant of the trace:
no torn combination of one field mid-update with the other. -/
theorem reads_observe_consistent_snapshot :
    ∀ (s : Shared) (tr : List StoreOp), ∀ o ∈ (runOps s tr).2,
      ∃ st ∈ traceStates s tr, o = (st.setpoint, st.rms_current) := by
  intro s tr
  induction tr generalizing s with
  | nil =>
    intro o ho
    simp [runOps] at ho
  | cons op rest ih =>
    intro o ho
    have hhead : s ∈ traceStates s (op :: rest) := by
      unfold traceStates
      rw [List.scanl_cons]
      exact List.mem_append_left _ (by simp)
    have htail : ∀ st, st ∈ traceStates (applyOp s op) rest →
        st ∈ traceStates s (op :: rest) := by
      intro st h
      unfold traceStates at h ⊢
      rw [List.scanl_cons]
      exact List.mem_append_right _ h
    cases op with
    | read =>
      have hro : (runOps s (StoreOp.read :: rest)).2 =
          (s.setpoint, s.rms_current) :: (runOps (applyOp s StoreOp.read) rest).2 := rfl
      rw [hro] at ho
      rcases List.mem_cons.mp ho with h | h
      · exact ⟨s, hhead, h⟩
      · obtain ⟨st, hst, he⟩ := ih (applyOp s StoreOp.read) o h
        exact ⟨st, htail st hst, he⟩
    | setSp v =>
      have hro : (runOps s (StoreOp.setSp v :: rest)).2 =
          (runOps (applyOp s (StoreOp.setSp v)) rest).2 := rfl
      rw [hro] at ho
      obtain ⟨st, hst, he⟩ := ih (applyOp s (StoreOp.setSp v)) o ho
      exact ⟨st, htail st hst, he⟩
    | setRms v =>
      have hro : (runOps s (StoreOp.setRms v :: rest)).2 =
          (runOps (applyOp s (StoreOp.setRms v)) rest).2 := rfl
      rw [hro] at ho
      obtain ⟨st, hst, he⟩ := ih (applyOp s (StoreOp.setRms v)) o ho
      exact ⟨st, htail st hst, he⟩

/-- C8 witness: in the trace that writes setpoint 0.5 and then reads,
the read observes the pair (0.5, 0), which is the store content after
the write. -/
theorem reads_observe_consistent_snapshot_witness :
    (1 / 2, 0) ∈ (runOps initShared [StoreOp.setSp (1 / 2), StoreOp.read]).2 ∧
    ∃ st ∈ traceStates initShared [StoreOp.setSp (1 / 2), StoreOp.read],
      ((1 / 2 : ℚ), (0 : ℚ)) = (st.setpoint, st.rms_current) :=
  ⟨by simp [runOps, applyOp, initShared],
    reads_observe_consistent_snapshot initShared
      [StoreOp.setSp (1 / 2), StoreOp.read] (1 / 2, 0)
      (by simp [runOps, applyOp, initShared])⟩

end Still
